import Mathlib

/-!
Shallow embedding of the lfy structured-logging core (headers under
include/lfy: Types.hpp, SegmentTrie.hpp, Outputter.hpp, Logger.hpp,
Repository.hpp) together with the flat-map variant SegmentMap.
Strings are modelled as `List Char`, wall-clock / steady-clock instants as
`Int`, and the std::unordered_map children of a trie node as an association
list.  All definitions follow the source revision cited by the development;
where two source revisions disagree the latest (the one the current
Repository/Flusher architecture compiles against) is embedded.
-/

namespace Lfy

/-- LogLevel from Types.hpp: enum class LogLevel { Debug = 0, Info = 1,
Warn = 2, Error = 3 }. -/
inductive LogLevel where
  | Debug
  | Info
  | Warn
  | Error
deriving DecidableEq, Repr

/-- Numeric value of the C++ enum constant. -/
def LogLevel.toNat : LogLevel → Nat
  | .Debug => 0
  | .Info => 1
  | .Warn => 2
  | .Error => 3

/-- Comparison of two enum values, as C++ `<` compares their numeric values. -/
def levelLt (a b : LogLevel) : Prop := a.toNat < b.toNat

/-- Comparison of two enum values, as C++ `<=` compares their numeric values. -/
def levelLe (a b : LogLevel) : Prop := a.toNat ≤ b.toNat

instance (a b : LogLevel) : Decidable (levelLt a b) := by
  unfold levelLt; infer_instance

instance (a b : LogLevel) : Decidable (levelLe a b) := by
  unfold levelLe; infer_instance

/-- logLevelToString from Types.hpp. -/
def logLevelToString : LogLevel → List Char
  | .Debug => "DEBUG".data
  | .Info => "INFO".data
  | .Warn => "WARN".data
  | .Error => "ERROR".data

/-!  Key segmentation.  SegmentTrie splits keys with
`std::views::split(key, ".")`: an empty key yields one empty segment,
adjacent/trailing delimiters yield empty segments. -/

/-- Split a key on the '.' delimiter, exactly as std::views::split does:
the result always has at least one (possibly empty) segment. -/
def splitSeg : List Char → List (List Char)
  | [] => [[]]
  | c :: cs =>
    if c = '.' then [] :: splitSeg cs
    else
      match splitSeg cs with
      | [] => [[c]]
      | s :: rest => (c :: s) :: rest

/-- Join segments back with the '.' delimiter (left inverse of splitSeg). -/
def joinSegs : List (List Char) → List Char
  | [] => []
  | [s] => s
  | s :: rest => s ++ '.' :: joinSegs rest

theorem splitSeg_ne_nil (l : List Char) : splitSeg l ≠ [] := by
  cases l with
  | nil => simp [splitSeg]
  | cons c cs =>
    simp only [splitSeg]
    split
    · simp
    · cases h : splitSeg cs <;> simp

theorem joinSegs_splitSeg (l : List Char) : joinSegs (splitSeg l) = l := by
  induction l with
  | nil => rfl
  | cons c cs ih =>
    simp only [splitSeg]
    by_cases hc : c = '.'
    · subst hc
      simp only [if_pos rfl]
      cases h : splitSeg cs with
      | nil => exact absurd h (splitSeg_ne_nil cs)
      | cons s rest =>
        rw [h] at ih
        simp only [joinSegs]
        rw [← ih]
        cases rest <;> simp [joinSegs]
    · simp only [if_neg hc]
      cases h : splitSeg cs with
      | nil => exact absurd h (splitSeg_ne_nil cs)
      | cons s rest =>
        rw [h] at ih
        cases rest with
        | nil => simp [joinSegs] at ih ⊢; exact ih
        | cons t ts => simp [joinSegs] at ih ⊢; rw [ih]

theorem splitSeg_injective {a b : List Char} (h : splitSeg a = splitSeg b) :
    a = b := by
  have := congrArg joinSegs h
  rwa [joinSegs_splitSeg, joinSegs_splitSeg] at this

/-!  SegmentTrie (SegmentTrie.hpp).  A node holds an optional value
(shared_ptr<T>, null modelled as `none`) and a map from segment label to
child node (std::unordered_map, modelled as an association list). -/

/-- Trie node: optional value plus labelled children. -/
inductive Trie (α : Type) where
  | node (value : Option α) (children : List (List Char × Trie α))
deriving Repr

/-- Value stored at this node (m_value). -/
def Trie.value : Trie α → Option α
  | .node v _ => v

/-- Children map of this node (m_children). -/
def Trie.children : Trie α → List (List Char × Trie α)
  | .node _ cs => cs

/-- A default-constructed SegmentTrie: empty root node. -/
def emptyTrie : Trie α := .node none []

/-- Lookup of a child by segment label (m_children.find). -/
def lookupChild (cs : List (List Char × Trie α)) (s : List Char) :
    Option (Trie α) :=
  match cs with
  | [] => none
  | (k, t) :: rest => if k = s then some t else lookupChild rest s

/-- Replace the child stored under label s, or add it when absent
(the emplace/assignment path of the source). -/
def setChild (cs : List (List Char × Trie α)) (s : List Char) (t : Trie α) :
    List (List Char × Trie α) :=
  match cs with
  | [] => [(s, t)]
  | (k, u) :: rest =>
    if k = s then (k, t) :: rest else (k, u) :: setChild rest s t

/-- Erase the child stored under label s (m_children.erase). -/
def eraseChild (cs : List (List Char × Trie α)) (s : List Char) :
    List (List Char × Trie α) :=
  match cs with
  | [] => []
  | (k, u) :: rest =>
    if k = s then eraseChild rest s else (k, u) :: eraseChild rest s

/-- SegmentTrie::insert on an already-split key: walk/create one node per
segment and attach the value to the final node (last write wins). -/
def insertSegs : Trie α → List (List Char) → α → Trie α
  | .node _v cs, [], x => .node (some x) cs
  | .node v cs, s :: rest, x =>
    let child := match lookupChild cs s with
      | some c => c
      | none => emptyTrie
    .node v (setChild cs s (insertSegs child rest x))

/-- SegmentTrie::find on an already-split key: exact descent, absent as soon
as one segment is missing. -/
def findSegs : Trie α → List (List Char) → Option α
  | t, [] => t.value
  | t, s :: rest =>
    match lookupChild t.children s with
    | none => none
    | some c => findSegs c rest

/-- Loop body of SegmentTrie::findByLongestPrefix: descend segment by
segment, remembering the last non-null child value, and return the
remembered value once a segment is missing (or the key is exhausted). -/
def longestSegsAux : Trie α → List (List Char) → Option α → Option α
  | _, [], acc => acc
  | t, s :: rest, acc =>
    match lookupChild t.children s with
    | none => acc
    | some c =>
      longestSegsAux c rest (match c.value with
        | some v => some v
        | none => acc)

/-- SegmentTrie::findByLongestPrefix on an already-split key. -/
def longestSegs (t : Trie α) (segs : List (List Char)) : Option α :=
  longestSegsAux t segs none

/-- SegmentTrie::remove on an already-split key: clear the value at the
final node; when that node is left childless, erase it from its parent
(only the final node is ever pruned). -/
def removeSegs : Trie α → List (List Char) → Trie α
  | t, [] => .node none t.children
  | t, s :: rest =>
    match lookupChild t.children s with
    | none => t
    | some c =>
      match rest with
      | [] =>
        let c' : Trie α := .node none c.children
        if c'.children.isEmpty then .node t.value (eraseChild t.children s)
        else .node t.value (setChild t.children s c')
      | r :: rs => .node t.value (setChild t.children s (removeSegs c (r :: rs)))

/-- SegmentTrie::insert (string key). -/
def trieInsert (t : Trie α) (key : List Char) (x : α) : Trie α :=
  insertSegs t (splitSeg key) x

/-- SegmentTrie::find (string key). -/
def trieFind (t : Trie α) (key : List Char) : Option α :=
  findSegs t (splitSeg key)

/-- SegmentTrie::findByLongestPrefix (string key). -/
def findByLongestPrefixTrie (t : Trie α) (key : List Char) : Option α :=
  longestSegs t (splitSeg key)

/-- SegmentTrie::remove (string key). -/
def trieRemove (t : Trie α) (key : List Char) : Trie α :=
  removeSegs t (splitSeg key)

/-!  SegmentMap (the flat-map variant): an unordered_map from full name to
value, with longest-prefix resolution by scanning the key right-to-left for
delimiter positions, and a final fallback to the ""-keyed default entry. -/

/-- The flat map itself (std::unordered_map, modelled as an association
list with unique keys maintained by mapInsert). -/
def SegMap (α : Type) := List (List Char × α)

/-- An empty SegmentMap. -/
def emptyMap {α : Type} : SegMap α := []

/-- SegmentMap::insert: insert_or_assign on the full name. -/
def mapInsert (m : SegMap α) (key : List Char) (x : α) : SegMap α :=
  match m with
  | [] => [(key, x)]
  | (k, v) :: rest =>
    if k = key then (k, x) :: rest else (k, v) :: mapInsert rest key x

/-- SegmentMap::find: exact-match lookup. -/
def mapFind (m : SegMap α) (key : List Char) : Option α :=
  match m with
  | [] => none
  | (k, v) :: rest => if k = key then some v else mapFind rest key

/-- SegmentMap::remove: erase the exact key. -/
def mapRemove (m : SegMap α) (key : List Char) : SegMap α :=
  m.filter (fun p => p.1 ≠ key)

/-- Scanning loop of SegmentMap::findByLongestPrefix: walk i from
key.size()-1 down to 1; whenever key[i] is the delimiter, probe
key.substr(0, i) and return its value when present. -/
def mapScan (m : SegMap α) (key : List Char) : Nat → Option α
  | 0 => none
  | i + 1 =>
    if key.getD (i + 1) ' ' = '.' then
      match mapFind m (key.take (i + 1)) with
      | some v => some v
      | none => mapScan m key i
    else mapScan m key i

/-- SegmentMap::findByLongestPrefix: direct match, then longest proper
dot-aligned prefix, then the ""-keyed default entry. -/
def findByLongestPrefixMap (m : SegMap α) (key : List Char) : Option α :=
  match mapFind m key with
  | some v => some v
  | none =>
    match mapScan m key (key.length - 1) with
    | some v => some v
    | none => mapFind m []

/-!  FileOutputter<N> (Outputter.hpp, the fixed-buffer revision).  The
std::array<char, N> buffer with its write index is modelled as the list of
the first m_bufferWriteIndex bytes; the bytes handed to fwrite on the
backing FILE* are accumulated in `written`; steady_clock instants are Int.
The per-sink mutex serialises calls, so the sequential model is the
per-sink behaviour. -/

/-- State of one FileOutputter<N>: capacity N, live buffer prefix, bytes
delivered to the backing resource, and m_lastFlush. -/
structure FileSink where
  capacity : Nat
  buffer : List Char
  written : List Char
  lastFlush : Int
deriving DecidableEq, Repr

/-- A freshly constructed FileOutputter<N> at time t0: empty buffer, nothing
written, m_lastFlush initialised to steady_clock::now(). -/
def mkFileSink (cap : Nat) (t0 : Int) : FileSink :=
  { capacity := cap, buffer := [], written := [], lastFlush := t0 }

/-- FileOutputter::flushUnlocked: nothing to do on an empty buffer;
otherwise fwrite the buffered bytes, reset the write index and record the
flush time. -/
def FileSink.flushU (s : FileSink) (now : Int) : FileSink :=
  if s.buffer.isEmpty then s
  else { s with written := s.written ++ s.buffer, buffer := [], lastFlush := now }

/-- FileOutputter::flush (takes the lock, then flushUnlocked). -/
def FileSink.flushAt (s : FileSink) (now : Int) : FileSink :=
  s.flushU now

/-- FileOutputter::output: flush first when the message plus terminator
no longer fits; write oversized messages directly (message then
terminator) resetting the write index; otherwise copy message and
terminator into the buffer. -/
def FileSink.output (s : FileSink) (now : Int) (msg : List Char) : FileSink :=
  let s1 := if s.buffer.length + msg.length + 1 > s.capacity then s.flushU now else s
  if msg.length + 1 > s1.capacity then
    { s1 with written := s1.written ++ msg ++ ['\n'], lastFlush := now,
              buffer := [] }
  else
    { s1 with buffer := s1.buffer ++ msg ++ ['\n'] }

/-- FileOutputter::~FileOutputter: the bytes the backing resource holds
after destruction — any remaining buffered bytes are written out. -/
def FileSink.destructed (s : FileSink) : List Char :=
  if s.buffer.isEmpty then s.written else s.written ++ s.buffer

/-!  ConsoleOutputter (same revision): a std::vector<char> buffer with
reserved capacity; identical buffering discipline, writing to stdout. -/

/-- State of one ConsoleOutputter: reserved capacity, buffered bytes, bytes
delivered to stdout, and m_lastFlush. -/
structure ConsoleSink where
  capacity : Nat
  buffer : List Char
  written : List Char
  lastFlush : Int
deriving DecidableEq, Repr

/-- A freshly constructed ConsoleOutputter at time t0. -/
def mkConsoleSink (cap : Nat) (t0 : Int) : ConsoleSink :=
  { capacity := cap, buffer := [], written := [], lastFlush := t0 }

/-- ConsoleOutputter::flushUnlocked. -/
def ConsoleSink.flushU (s : ConsoleSink) (now : Int) : ConsoleSink :=
  if s.buffer.isEmpty then s
  else { s with written := s.written ++ s.buffer, buffer := [], lastFlush := now }

/-- ConsoleOutputter::flush. -/
def ConsoleSink.flushAt (s : ConsoleSink) (now : Int) : ConsoleSink :=
  s.flushU now

/-- ConsoleOutputter::output (same all-or-nothing discipline; the direct
path does not touch the buffer, which the preceding flush left empty). -/
def ConsoleSink.output (s : ConsoleSink) (now : Int) (msg : List Char) :
    ConsoleSink :=
  let s1 := if s.buffer.length + msg.length + 1 > s.capacity then s.flushU now else s
  if msg.length + 1 > s1.capacity then
    { s1 with written := s1.written ++ msg ++ ['\n'], lastFlush := now }
  else
    { s1 with buffer := s1.buffer ++ msg ++ ['\n'] }

/-!  Flushers (Logger.hpp, namespace flushers) as strategies applied to a
sink after each output. -/

/-- The flusher strategies NeverFlush, AlwaysFlush and
TimeThresholdFlush(threshold). -/
inductive FlusherK where
  | never
  | always
  | timeThreshold (threshold : Int)
deriving DecidableEq, Repr

/-- Apply a flusher to a FileSink: NeverFlush does nothing, AlwaysFlush
calls flush(), TimeThresholdFlush flushes iff now - lastFlush() >=
threshold. -/
def applyFlusher (f : FlusherK) (now : Int) (s : FileSink) : FileSink :=
  match f with
  | .never => s
  | .always => s.flushAt now
  | .timeThreshold d => if now - s.lastFlush ≥ d then s.flushAt now else s

/-!  Logger (Logger.hpp, the Flusher/Repository revision). -/

/-- LogMetaData: per-call snapshot of logger name, level, timestamp and
calling thread. -/
structure LogMeta where
  loggerName : List Char
  level : LogLevel
  timestamp : Int
  threadId : Nat

/-- HeaderGenerator: std::function<std::string(const LogMetaData&)>. -/
def HeaderGen := LogMeta → List Char

/-- headergen::Level. -/
def headerLevel : HeaderGen := fun md => logLevelToString md.level

/-- headergen::LoggerName. -/
def headerLoggerName : HeaderGen := fun md => md.loggerName

/-- LogFormatter::format: for each header generator in order emit
"[fragment] ", then append the rendered user message. -/
def formatLine (md : LogMeta) (headers : List HeaderGen) (msg : List Char) :
    List Char :=
  (headers.map (fun h => '[' :: (h md ++ "] ".data))).flatten ++ msg

/-- Logger state: immutable name, current level, header generators,
outputters and the flush applier. -/
structure LoggerM where
  name : List Char
  level : LogLevel
  headerGens : List HeaderGen
  outputters : List FileSink
  flusher : FlusherK

/-- The private Logger(std::string name) constructor together with the
member initialisers: level Info, AlwaysFlush, no outputters, no header
generators. -/
def mkLogger (name : List Char) : LoggerM :=
  { name := name, level := .Info, headerGens := [], outputters := [],
    flusher := .always }

instance : Inhabited LoggerM := ⟨mkLogger []⟩

/-- Logger::log: for each outputter, output the line and then apply the
flush applier to that outputter. -/
def LoggerM.logDispatch (lg : LoggerM) (now : Int) (message : List Char) :
    LoggerM :=
  { lg with outputters :=
      lg.outputters.map (fun o => applyFlusher lg.flusher now (o.output now message)) }

/-- The shared body of Logger::debug/info/warn/error at a given call level:
return without any effect when m_level > callLevel, otherwise build the
LogMetaData snapshot, format and dispatch.  `none` models the early
return, `some` the emitted state. -/
def LoggerM.callAt (lg : LoggerM) (callLevel : LogLevel) (now : Int)
    (tid : Nat) (msg : List Char) : Option LoggerM :=
  if levelLt callLevel lg.level then none
  else
    let md : LogMeta :=
      { loggerName := lg.name, level := callLevel, timestamp := now,
        threadId := tid }
    some (lg.logDispatch now (formatLine md lg.headerGens msg))

/-- Logger::debug. -/
def LoggerM.debugCall (lg : LoggerM) (now : Int) (tid : Nat)
    (msg : List Char) : Option LoggerM :=
  lg.callAt .Debug now tid msg

/-- Logger::info. -/
def LoggerM.infoCall (lg : LoggerM) (now : Int) (tid : Nat)
    (msg : List Char) : Option LoggerM :=
  lg.callAt .Info now tid msg

/-- Logger::warn. -/
def LoggerM.warnCall (lg : LoggerM) (now : Int) (tid : Nat)
    (msg : List Char) : Option LoggerM :=
  lg.callAt .Warn now tid msg

/-- Logger::error. -/
def LoggerM.errorCall (lg : LoggerM) (now : Int) (tid : Nat)
    (msg : List Char) : Option LoggerM :=
  lg.callAt .Error now tid msg

/-- Logger::setLogLevel. -/
def LoggerM.setLogLevel (lg : LoggerM) (lvl : LogLevel) : LoggerM :=
  { lg with level := lvl }

/-- Logger::addOutputter. -/
def LoggerM.addOutputter (lg : LoggerM) (o : FileSink) : LoggerM :=
  { lg with outputters := lg.outputters ++ [o] }

/-- Logger::addHeaderGenerator. -/
def LoggerM.addHeaderGenerator (lg : LoggerM) (h : HeaderGen) : LoggerM :=
  { lg with headerGens := lg.headerGens ++ [h] }

/-!  Repository (Repository.hpp, the SegmentTrie revision).  shared_ptr
identity is modelled by an index into a heap of Logger states; the trie
maps a path to that index. -/

/-- Repository singleton state: the SegmentTrie of loggers and the heap
giving each logger id its current state. -/
structure Repo where
  trie : Trie Nat
  heap : List LoggerM

/-- An empty Repository. -/
def emptyRepo : Repo := { trie := emptyTrie, heap := [] }

/-- Repository::getLogger: exact match returns the registered logger;
otherwise, with inheritance, snapshot the nearest registered ancestor's
outputters, header generators, formatter, level and flusher into a new
logger named `path`; otherwise construct a default logger.  New loggers
are registered under `path` before being returned. -/
def Repo.getLogger (r : Repo) (path : List Char) (inheritFromParent : Bool) :
    Nat × Repo :=
  match trieFind r.trie path with
  | some id => (id, r)
  | none =>
    let fresh : LoggerM :=
      if inheritFromParent then
        match findByLongestPrefixTrie r.trie path with
        | some pid =>
          let parent := r.heap.getD pid default
          { parent with name := path }
        | none => mkLogger path
      else mkLogger path
    (r.heap.length,
      { trie := trieInsert r.trie path r.heap.length,
        heap := r.heap ++ [fresh] })

/-- Repository::addLogger: register (insert_or_overwrite) a logger under a
path. -/
def Repo.addLogger (r : Repo) (path : List Char) (lg : LoggerM) : Repo :=
  { trie := trieInsert r.trie path r.heap.length, heap := r.heap ++ [lg] }

/-- Calling setLogLevel on the logger object registered under id. -/
def Repo.setLevelAt (r : Repo) (id : Nat) (lvl : LogLevel) : Repo :=
  { r with heap := r.heap.set id ((r.heap.getD id default).setLogLevel lvl) }

/-- Calling addOutputter on the logger object registered under id. -/
def Repo.addOutputterAt (r : Repo) (id : Nat) (o : FileSink) : Repo :=
  { r with heap := r.heap.set id ((r.heap.getD id default).addOutputter o) }

/-!  FileOutputter construction (init) against the file-resource boundary.
std::fopen(path, "a") opens for append: an existing file is opened
without truncation when it is a writable regular file, an absent file is
created empty when the directory allows it. -/

/-- Abstract state of the backing path before construction. -/
structure FsState where
  pathExists : Bool
  isWritableRegular : Bool
  canCreate : Bool
  contents : List Char
deriving DecidableEq, Repr

/-- fopen(path, "a"): append mode.  On success the file exists afterwards,
existing contents are preserved (never truncated) and an absent file is
created empty. -/
def openForAppend (fs : FsState) : Option FsState :=
  if fs.pathExists then
    if fs.isWritableRegular then some fs else none
  else
    if fs.canCreate then some { fs with pathExists := true, contents := [] }
    else none

/-- The runtime errors FileOutputter::init can raise: failure to open an
existing path (the message carries "(Not enough acess rights)"), failure
to create an absent one (plain message), and failure of setvbuf. -/
inductive InitError where
  | openFailedExisting
  | openFailedMissing
  | setvbufFailed
deriving DecidableEq, Repr

/-- FileOutputter::init: fopen in append mode; on null throw an error whose
message distinguishes an existing path from an absent one; then disable
stdio buffering via setvbuf(_IONBF) and throw when that fails. -/
def fileOutputterInit (fs : FsState) (setvbufOk : Bool) :
    Except InitError FsState :=
  match openForAppend fs with
  | none =>
    .error (if fs.pathExists then .openFailedExisting else .openFailedMissing)
  | some fsOpen =>
    if setvbufOk then .ok fsOpen else .error .setvbufFailed

/-!  Supporting lemmas about the buffered sink. -/

/-- The concatenation of the given messages, each followed by one newline
terminator. -/
def linesOf (msgs : List (List Char)) : List Char :=
  (msgs.map (fun m => m ++ ['\n'])).flatten

/-- Run a sequence of timed output calls against a file sink. -/
def runOutputs (s : FileSink) (ops : List (Int × List Char)) : FileSink :=
  ops.foldl (fun a p => a.output p.1 p.2) s

theorem flushU_split (s : FileSink) (now : Int) :
    (s.flushU now).written = s.written ++ s.buffer ∧
      (s.flushU now).buffer = [] := by
  unfold FileSink.flushU
  by_cases h : s.buffer.isEmpty
  · rw [List.isEmpty_iff] at h
    simp [h]
  · simp [h]

theorem flushU_capacity (s : FileSink) (now : Int) :
    (s.flushU now).capacity = s.capacity := by
  unfold FileSink.flushU; split <;> rfl

theorem output_split (s : FileSink) (now : Int) (msg : List Char) :
    (s.output now msg).written ++ (s.output now msg).buffer =
      s.written ++ s.buffer ++ msg ++ ['\n'] := by
  unfold FileSink.output
  set s1 := if s.buffer.length + msg.length + 1 > s.capacity then s.flushU now else s with hs1
  have hcap : s1.capacity = s.capacity := by
    rw [hs1]; split
    · exact flushU_capacity s now
    · rfl
  have hws : s1.written ++ s1.buffer = s.written ++ s.buffer := by
    rw [hs1]; split
    · rw [(flushU_split s now).1, (flushU_split s now).2]; simp
    · rfl
  by_cases h2 : msg.length + 1 > s1.capacity
  · have hb : s1.buffer = [] := by
      rw [hs1, if_pos (by rw [hcap] at h2; omega)]
      exact (flushU_split s now).2
    have hw : s1.written = s.written ++ s.buffer := by
      rw [← hws, hb]; simp
    simp [if_pos h2, hw, List.append_assoc]
  · simp only [if_neg h2]
    show s1.written ++ (s1.buffer ++ msg ++ ['\n']) = _
    rw [← List.append_assoc, ← List.append_assoc, hws]

theorem runOutputs_split (ops : List (Int × List Char)) (s : FileSink) :
    (runOutputs s ops).written ++ (runOutputs s ops).buffer =
      s.written ++ s.buffer ++ linesOf (ops.map Prod.snd) := by
  induction ops generalizing s with
  | nil => simp [runOutputs, linesOf]
  | cons p rest ih =>
    simp only [runOutputs, List.foldl_cons] at *
    rw [ih (s.output p.1 p.2), output_split]
    simp [linesOf, List.append_assoc]

/-- C1: a call to debug/info/warn/error emits the message (constructs
metadata, formats, dispatches to the sinks) iff the message's level is at
least the logger's current threshold level; in particular a logger
thresholded at L2 drops every call at any L1 < L2 and emits every call at
level at least L2. -/
theorem c1_level_threshold_filter :
    ∀ (lg : LoggerM) (now : Int) (tid : Nat) (msg : List Char),
      ((lg.debugCall now tid msg).isSome ↔ levelLe lg.level .Debug) ∧
      ((lg.infoCall now tid msg).isSome ↔ levelLe lg.level .Info) ∧
      ((lg.warnCall now tid msg).isSome ↔ levelLe lg.level .Warn) ∧
      ((lg.errorCall now tid msg).isSome ↔ levelLe lg.level .Error) ∧
      (∀ l1 : LogLevel, levelLt l1 lg.level → lg.callAt l1 now tid msg = none) ∧
      (∀ l : LogLevel, levelLe lg.level l → (lg.callAt l now tid msg).isSome) := by
  intro lg now tid msg
  have key : ∀ l : LogLevel,
      (lg.callAt l now tid msg).isSome ↔ levelLe lg.level l := by
    intro l
    unfold LoggerM.callAt
    by_cases h : levelLt l lg.level
    · simp only [if_pos h, Option.isSome_none]
      unfold levelLt at h
      unfold levelLe
      simp; omega
    · simp only [if_neg h, Option.isSome_some]
      unfold levelLt at h
      unfold levelLe
      simp; omega
  refine ⟨key .Debug, key .Info, key .Warn, key .Error, ?_, ?_⟩
  · intro l1 h1
    unfold LoggerM.callAt
    rw [if_pos h1]
  · intro l h
    exact (key l).mpr h

/-- C1 witness: a logger at the default Info threshold drops a Debug call
and emits a Warn call. -/
theorem c1_level_threshold_filter_witness :
    (mkLogger ("a".data)).callAt .Debug 0 0 [] = none ∧
      ((mkLogger ("a".data)).callAt .Warn 0 0 []).isSome :=
  ⟨(c1_level_threshold_filter (mkLogger ("a".data)) 0 0 []).2.2.2.2.1 .Debug
      (by decide),
    (c1_level_threshold_filter (mkLogger ("a".data)) 0 0 []).2.2.2.2.2 .Warn
      (by decide)⟩

/-- C2: for every finite sequence of timed append calls on a file sink
(including oversized messages) followed by one flush or by destruction,
the bytes delivered to the backing resource are exactly the concatenation
of each message followed by one newline, in call order; with a 16-byte
buffer, append "hi" then "bye" deliver nothing, and a flush leaves exactly
"hi\nbye\n". -/
theorem c2_append_flush_exact_bytes :
    ∀ (ops : List (Int × List Char)) (cap : Nat) (t0 tF : Int),
      ((runOutputs (mkFileSink cap t0) ops).flushAt tF).written =
          linesOf (ops.map Prod.snd) ∧
      ((runOutputs (mkFileSink cap t0) ops).flushAt tF).buffer = [] ∧
      (runOutputs (mkFileSink cap t0) ops).destructed =
          linesOf (ops.map Prod.snd) ∧
      (runOutputs (mkFileSink 16 t0) [(t0, "hi".data), (t0, "bye".data)]).written
          = [] ∧
      ((runOutputs (mkFileSink 16 t0) [(t0, "hi".data), (t0, "bye".data)]).flushAt
          tF).written = "hi\nbye\n".data := by
  intro ops cap t0 tF
  have hrun := runOutputs_split ops (mkFileSink cap t0)
  have hfl := flushU_split (runOutputs (mkFileSink cap t0) ops) tF
  have hdes : ∀ s : FileSink, s.destructed = s.written ++ s.buffer := by
    intro s
    unfold FileSink.destructed
    by_cases h : s.buffer.isEmpty
    · rw [List.isEmpty_iff] at h; simp [h]
    · simp [h]
  refine ⟨?_, hfl.2, ?_, ?_, ?_⟩
  · show (FileSink.flushU _ tF).written = _
    rw [hfl.1, hrun]
    simp [mkFileSink]
  · rw [hdes, hrun]
    simp [mkFileSink]
  · show (runOutputs (mkFileSink 16 t0) [(t0, "hi".data), (t0, "bye".data)]).written = _
    rfl
  · show (FileSink.flushU _ tF).written = _
    have h2 := runOutputs_split [(t0, "hi".data), (t0, "bye".data)] (mkFileSink 16 t0)
    have hb := flushU_split (runOutputs (mkFileSink 16 t0) [(t0, "hi".data), (t0, "bye".data)]) tF
    rw [hb.1, h2]
    simp only [mkFileSink, List.nil_append, List.map_cons, List.map_nil]
    decide

/-- Predicate: the buffer is a concatenation of complete
message-plus-terminator units. -/
def WholeLines (buf : List Char) : Prop :=
  ∃ msgs : List (List Char), buf = linesOf msgs

/-- One sequential operation against a sink: a timed append or a timed
flush. -/
inductive SinkOp where
  | out (now : Int) (msg : List Char)
  | fl (now : Int)

/-- Run a sequence of append/flush operations against a file sink. -/
def runOps (s : FileSink) (ops : List SinkOp) : FileSink :=
  ops.foldl
    (fun a op => match op with
      | .out t m => a.output t m
      | .fl t => a.flushAt t) s

theorem wholeLines_output (s : FileSink) (now : Int) (msg : List Char)
    (h : WholeLines s.buffer) : WholeLines (s.output now msg).buffer := by
  obtain ⟨ms, hms⟩ := h
  unfold FileSink.output
  set s1 := if s.buffer.length + msg.length + 1 > s.capacity then s.flushU now else s with hs1
  have hb1 : s1.buffer = s.buffer ∨ s1.buffer = [] := by
    rw [hs1]; split
    · exact Or.inr (flushU_split s now).2
    · exact Or.inl rfl
  by_cases h2 : msg.length + 1 > s1.capacity
  · exact ⟨[], by simp [if_pos h2, linesOf]⟩
  · simp only [if_neg h2]
    rcases hb1 with hb | hb
    · exact ⟨ms ++ [msg], by
        show s1.buffer ++ msg ++ ['\n'] = _
        simp [hb, hms, linesOf, List.append_assoc]⟩
    · exact ⟨[msg], by
        show s1.buffer ++ msg ++ ['\n'] = _
        simp [hb, linesOf]⟩

theorem wholeLines_flush (s : FileSink) (now : Int)
    (h : WholeLines s.buffer) : WholeLines (s.flushAt now).buffer := by
  unfold FileSink.flushAt FileSink.flushU
  split
  · exact h
  · exact ⟨[], by simp [linesOf]⟩

/-- C8: starting from a fresh sink, after any sequence of append/flush
operations the buffer contains only whole lines; moreover each append is
all-or-nothing: it either appends the entire message plus terminator to
the buffer (possibly after flushing it), or leaves the buffer empty having
delivered the whole line (preceded by all previously buffered bytes)
directly to the backing resource. -/
theorem c8_buffer_whole_lines :
    (∀ (ops : List SinkOp) (cap : Nat) (t0 : Int),
        WholeLines (runOps (mkFileSink cap t0) ops).buffer) ∧
      (∀ (s : FileSink) (now : Int) (msg : List Char),
        (s.output now msg).buffer = s.buffer ++ msg ++ ['\n'] ∨
          (s.output now msg).buffer = msg ++ ['\n'] ∨
          ((s.output now msg).buffer = [] ∧
            (s.output now msg).written = s.written ++ s.buffer ++ msg ++ ['\n'])) := by
  constructor
  · intro ops cap t0
    have gen : ∀ (l : List SinkOp) (s : FileSink), WholeLines s.buffer →
        WholeLines (runOps s l).buffer := by
      intro l
      induction l with
      | nil => intro s h; exact h
      | cons op rest ih =>
        intro s h
        show WholeLines (runOps _ rest).buffer
        cases op with
        | out t m => exact ih _ (wholeLines_output s t m h)
        | fl t => exact ih _ (wholeLines_flush s t h)
    exact gen ops (mkFileSink cap t0) ⟨[], rfl⟩
  · intro s now msg
    unfold FileSink.output
    set s1 := if s.buffer.length + msg.length + 1 > s.capacity then s.flushU now else s with hs1
    have hcap : s1.capacity = s.capacity := by
      rw [hs1]; split
      · exact flushU_capacity s now
      · rfl
    by_cases h2 : msg.length + 1 > s1.capacity
    · refine Or.inr (Or.inr ⟨by simp [if_pos h2], ?_⟩)
      have hfl : s1.buffer = [] ∧ s1.written = s.written ++ s.buffer := by
        rw [hs1, if_pos (by rw [hcap] at h2; omega)]
        exact ⟨(flushU_split s now).2, (flushU_split s now).1⟩
      simp [if_pos h2, hfl.2, List.append_assoc]
    · simp only [if_neg h2]
      have hb1 : s1.buffer = s.buffer ∨ s1.buffer = [] := by
        rw [hs1]; split
        · exact Or.inr (flushU_split s now).2
        · exact Or.inl rfl
      rcases hb1 with hb | hb
      · exact Or.inl (by show s1.buffer ++ msg ++ ['\n'] = _; rw [hb])
      · exact Or.inr (Or.inl (by show s1.buffer ++ msg ++ ['\n'] = _; simp [hb]))

/-- C10: flushing a sink whose buffer is empty is a complete no-op for the
file sink and the console sink alike: no bytes reach the backing resource
and the recorded last-flush timestamp is unchanged. -/
theorem c10_flush_empty_noop :
    (∀ (s : FileSink) (now : Int), s.buffer = [] → s.flushAt now = s) ∧
      (∀ (c : ConsoleSink) (now : Int), c.buffer = [] → c.flushAt now = c) := by
  constructor
  · intro s now h
    unfold FileSink.flushAt FileSink.flushU
    rw [if_pos (by simp [h])]
  · intro c now h
    unfold ConsoleSink.flushAt ConsoleSink.flushU
    rw [if_pos (by simp [h])]

/-- C10 witness: flushing fresh (empty) sinks at a later time changes
nothing. -/
theorem c10_flush_empty_noop_witness :
    (mkFileSink 4 0).flushAt 99 = mkFileSink 4 0 ∧
      (mkConsoleSink 4 0).flushAt 99 = mkConsoleSink 4 0 :=
  ⟨c10_flush_empty_noop.1 (mkFileSink 4 0) 99 rfl,
    c10_flush_empty_noop.2 (mkConsoleSink 4 0) 99 rfl⟩

/-- C3 counterexample: the very first TimeThresholdFlush evaluation does
NOT always trigger a flush.  A sink constructed at time 0 receives an
append at 200 (threshold 1000): the policy leaves the sink untouched —
the line stays buffered and nothing is delivered — although an actual
flush would have changed the state. -/
theorem c3_first_eval_not_always_flush :
    applyFlusher (.timeThreshold 1000) 200
          ((mkFileSink 16 0).output 200 ("m".data)) =
        (mkFileSink 16 0).output 200 ("m".data) ∧
      ((mkFileSink 16 0).output 200 ("m".data)).buffer = "m\n".data ∧
      (((mkFileSink 16 0).output 200 ("m".data)).flushAt 200).written =
        "m\n".data ∧
      (applyFlusher (.timeThreshold 1000) 200
          ((mkFileSink 16 0).output 200 ("m".data))).written = [] := by
  decide

/-- C3 amended: TimeThresholdFlush(d), evaluated after an append, flushes
iff the elapsed time since the sink's lastFlush() is at least d.  The
last-flush timestamp is initialised to the sink's construction time, so
the first evaluation flushes only when at least d has elapsed since
construction (not unconditionally); with d = 1s and the first call 1s
after construction, that call flushes, a call 200ms later does not, and a
call 1100ms after the first does. -/
theorem c3_time_threshold_amended :
    (∀ (cap : Nat) (t0 : Int), (mkFileSink cap t0).lastFlush = t0) ∧
      (∀ (d now : Int) (s : FileSink), now - s.lastFlush ≥ d →
        applyFlusher (.timeThreshold d) now s = s.flushAt now) ∧
      (∀ (d now : Int) (s : FileSink), now - s.lastFlush < d →
        applyFlusher (.timeThreshold d) now s = s) ∧
      ((applyFlusher (.timeThreshold 1000) 1000
          ((mkFileSink 64 0).output 1000 ("a".data))).written = "a\n".data ∧
        (applyFlusher (.timeThreshold 1000) 1200
          ((applyFlusher (.timeThreshold 1000) 1000
              ((mkFileSink 64 0).output 1000 ("a".data))).output 1200
            ("b".data))).written = "a\n".data ∧
        (applyFlusher (.timeThreshold 1000) 2100
          (((applyFlusher (.timeThreshold 1000) 1200
              ((applyFlusher (.timeThreshold 1000) 1000
                  ((mkFileSink 64 0).output 1000 ("a".data))).output 1200
                ("b".data)))).output 2100 ("c".data))).written =
          "a\nb\nc\n".data) := by
  refine ⟨fun cap t0 => rfl, ?_, ?_, by decide⟩
  · intro d now s h
    show (if now - s.lastFlush ≥ d then s.flushAt now else s) = s.flushAt now
    rw [if_pos h]
  · intro d now s h
    show (if now - s.lastFlush ≥ d then s.flushAt now else s) = s
    rw [if_neg (by omega)]

/-- C3 amended witness: a sink constructed at time 2 evaluated at time 10
with threshold 5 flushes; evaluated at time 4 it does not. -/
theorem c3_time_threshold_amended_witness :
    applyFlusher (.timeThreshold 5) 10 (mkFileSink 4 2) =
        (mkFileSink 4 2).flushAt 10 ∧
      applyFlusher (.timeThreshold 5) 4 (mkFileSink 4 2) = mkFileSink 4 2 :=
  ⟨c3_time_threshold_amended.2.1 5 10 (mkFileSink 4 2) (by decide),
    c3_time_threshold_amended.2.2.1 5 4 (mkFileSink 4 2) (by decide)⟩

/-!  Lemmas about the children association list. -/

/-!  Lemmas about the children association list. -/

theorem lookup_setChild_self (cs : List (List Char × Trie α)) (s : List Char)
    (t : Trie α) : lookupChild (setChild cs s t) s = some t := by
  induction cs with
  | nil => simp [setChild, lookupChild]
  | cons p rest ih =>
    cases p with
    | mk k u =>
      by_cases h : k = s
      · simp [setChild, lookupChild, h]
      · simp [setChild, lookupChild, h, ih]

theorem lookup_setChild_ne (cs : List (List Char × Trie α))
    (s s' : List Char) (t : Trie α) (h : s' ≠ s) :
    lookupChild (setChild cs s t) s' = lookupChild cs s' := by
  induction cs with
  | nil =>
    simp only [setChild, lookupChild]
    rw [if_neg (fun he => h he.symm)]
  | cons p rest ih =>
    cases p with
    | mk k u =>
      by_cases hk : k = s
      · subst hk
        simp only [setChild, if_pos rfl, lookupChild]
        rw [if_neg (fun he => h he.symm), if_neg (fun he => h he.symm)]
      · simp only [setChild, if_neg hk, lookupChild]
        by_cases hk' : k = s'
        · simp [hk']
        · simp [hk', ih]

theorem lookup_eraseChild_self (cs : List (List Char × Trie α))
    (s : List Char) : lookupChild (eraseChild cs s) s = none := by
  induction cs with
  | nil => simp [eraseChild, lookupChild]
  | cons p rest ih =>
    cases p with
    | mk k u =>
      by_cases hk : k = s
      · simpa [eraseChild, hk] using ih
      · simpa [eraseChild, lookupChild, hk] using ih

theorem lookup_eraseChild_ne (cs : List (List Char × Trie α))
    (s s' : List Char) (h : s' ≠ s) :
    lookupChild (eraseChild cs s) s' = lookupChild cs s' := by
  induction cs with
  | nil => simp [eraseChild]
  | cons p rest ih =>
    cases p with
    | mk k u =>
      by_cases hk : k = s
      · subst hk
        have h1 : eraseChild ((k, u) :: rest) k = eraseChild rest k := by
          simp [eraseChild]
        rw [h1, ih]
        simp only [lookupChild]
        rw [if_neg (fun he => h he.symm)]
      · have h1 : eraseChild ((k, u) :: rest) s = (k, u) :: eraseChild rest s := by
          simp [eraseChild, hk]
        rw [h1]
        simp only [lookupChild]
        by_cases hk' : k = s'
        · simp [hk']
        · simp [hk', ih]

/-!  Unfolding equations for the node projections and the trie
operations, by case on the child lookup. -/

theorem children_node (v : Option α) (cs : List (List Char × Trie α)) :
    (Trie.node v cs).children = cs := rfl

theorem value_node (v : Option α) (cs : List (List Char × Trie α)) :
    (Trie.node v cs).value = v := rfl

theorem findSegs_nil (t : Trie α) : findSegs t [] = t.value := rfl

theorem lookupChild_nil (s : List Char) :
    lookupChild ([] : List (List Char × Trie α)) s = none := rfl

theorem findSegs_cons_none {cs : List (List Char × Trie α)} {s : List Char}
    (v : Option α) (rest : List (List Char))
    (hc : lookupChild cs s = none) :
    findSegs (Trie.node v cs) (s :: rest) = none := by
  show (match lookupChild cs s with
    | none => none
    | some c => findSegs c rest) = none
  rw [hc]

theorem findSegs_cons_some {cs : List (List Char × Trie α)} {s : List Char}
    {c : Trie α} (v : Option α) (rest : List (List Char))
    (hc : lookupChild cs s = some c) :
    findSegs (Trie.node v cs) (s :: rest) = findSegs c rest := by
  show (match lookupChild cs s with
    | none => none
    | some c => findSegs c rest) = findSegs c rest
  rw [hc]

theorem findSegs_emptyTrie (ks : List (List Char)) :
    findSegs (emptyTrie : Trie α) ks = none := by
  cases ks <;> rfl

theorem insertSegs_nil (v : Option α) (cs : List (List Char × Trie α))
    (x : α) : insertSegs (Trie.node v cs) [] x = Trie.node (some x) cs := rfl

theorem insertSegs_cons_none {cs : List (List Char × Trie α)} {s : List Char}
    (v : Option α) (rest : List (List Char)) (x : α)
    (hc : lookupChild cs s = none) :
    insertSegs (Trie.node v cs) (s :: rest) x =
      Trie.node v (setChild cs s (insertSegs emptyTrie rest x)) := by
  show Trie.node v (setChild cs s (insertSegs
    (match lookupChild cs s with
      | some c => c
      | none => emptyTrie) rest x)) = _
  rw [hc]

theorem insertSegs_cons_some {cs : List (List Char × Trie α)} {s : List Char}
    {c : Trie α} (v : Option α) (rest : List (List Char)) (x : α)
    (hc : lookupChild cs s = some c) :
    insertSegs (Trie.node v cs) (s :: rest) x =
      Trie.node v (setChild cs s (insertSegs c rest x)) := by
  show Trie.node v (setChild cs s (insertSegs
    (match lookupChild cs s with
      | some c => c
      | none => emptyTrie) rest x)) = _
  rw [hc]

theorem removeSegs_nil (t : Trie α) :
    removeSegs t [] = Trie.node none t.children := rfl

theorem removeSegs_cons_none {cs : List (List Char × Trie α)} {s : List Char}
    (v : Option α) (rest : List (List Char))
    (hc : lookupChild cs s = none) :
    removeSegs (Trie.node v cs) (s :: rest) = Trie.node v cs := by
  cases rest with
  | nil => simp only [removeSegs, children_node, hc]
  | cons r rs => simp only [removeSegs, children_node, hc]

theorem removeSegs_last_prune {cs : List (List Char × Trie α)} {s : List Char}
    {c : Trie α} (v : Option α) (hc : lookupChild cs s = some c)
    (he : c.children.isEmpty) :
    removeSegs (Trie.node v cs) [s] = Trie.node v (eraseChild cs s) := by
  simp only [removeSegs, children_node, value_node, hc]
  rw [if_pos he]

theorem removeSegs_last_keep {cs : List (List Char × Trie α)} {s : List Char}
    {c : Trie α} (v : Option α) (hc : lookupChild cs s = some c)
    (he : ¬c.children.isEmpty) :
    removeSegs (Trie.node v cs) [s] =
      Trie.node v (setChild cs s (Trie.node none c.children)) := by
  simp only [removeSegs, children_node, value_node, hc]
  rw [if_neg he]

theorem removeSegs_deep {cs : List (List Char × Trie α)} {s : List Char}
    {c : Trie α} (v : Option α) (r : List Char) (rs : List (List Char))
    (hc : lookupChild cs s = some c) :
    removeSegs (Trie.node v cs) (s :: r :: rs) =
      Trie.node v (setChild cs s (removeSegs c (r :: rs))) := by
  conv_lhs => rw [removeSegs]
  simp only [children_node, value_node, hc]

/-!  find/insert/remove interaction at the segment-list level. -/

theorem findSegs_insertSegs_self (t : Trie α) (ks : List (List Char))
    (v : α) : findSegs (insertSegs t ks v) ks = some v := by
  induction ks generalizing t with
  | nil => cases t; rfl
  | cons s rest ih =>
    cases t with
    | node tv cs =>
      cases hc : lookupChild cs s with
      | none =>
        rw [insertSegs_cons_none tv rest v hc,
          findSegs_cons_some tv rest (lookup_setChild_self cs s _)]
        exact ih _
      | some c =>
        rw [insertSegs_cons_some tv rest v hc,
          findSegs_cons_some tv rest (lookup_setChild_self cs s _)]
        exact ih _

theorem findSegs_insertSegs_ne (t : Trie α) (ks ks' : List (List Char))
    (v : α) (h : ks' ≠ ks) :
    findSegs (insertSegs t ks v) ks' = findSegs t ks' := by
  induction ks generalizing t ks' with
  | nil =>
    cases ks' with
    | nil => exact absurd rfl h
    | cons s' rest' =>
      cases t with
      | node tv cs => rfl
  | cons s rest ih =>
    cases t with
    | node tv cs =>
      cases hc : lookupChild cs s with
      | none =>
        rw [insertSegs_cons_none tv rest v hc]
        cases ks' with
        | nil => rfl
        | cons s' rest' =>
          by_cases hs : s' = s
          · subst hs
            have hrest : rest' ≠ rest := fun he => h (by rw [he])
            rw [findSegs_cons_some tv rest' (lookup_setChild_self cs s' _),
              ih _ _ hrest, findSegs_emptyTrie,
              findSegs_cons_none tv rest' hc]
          · cases hc2 : lookupChild cs s' with
            | none =>
              rw [findSegs_cons_none tv rest'
                  (by rw [lookup_setChild_ne cs s s' _ hs]; exact hc2),
                findSegs_cons_none tv rest' hc2]
            | some c2 =>
              rw [findSegs_cons_some tv rest'
                  (by rw [lookup_setChild_ne cs s s' _ hs]; exact hc2),
                findSegs_cons_some tv rest' hc2]
      | some c =>
        rw [insertSegs_cons_some tv rest v hc]
        cases ks' with
        | nil => rfl
        | cons s' rest' =>
          by_cases hs : s' = s
          · subst hs
            have hrest : rest' ≠ rest := fun he => h (by rw [he])
            rw [findSegs_cons_some tv rest' (lookup_setChild_self cs s' _),
              ih _ _ hrest, findSegs_cons_some tv rest' hc]
          · cases hc2 : lookupChild cs s' with
            | none =>
              rw [findSegs_cons_none tv rest'
                  (by rw [lookup_setChild_ne cs s s' _ hs]; exact hc2),
                findSegs_cons_none tv rest' hc2]
            | some c2 =>
              rw [findSegs_cons_some tv rest'
                  (by rw [lookup_setChild_ne cs s s' _ hs]; exact hc2),
                findSegs_cons_some tv rest' hc2]

theorem findSegs_removeSegs_self (t : Trie α) (ks : List (List Char)) :
    findSegs (removeSegs t ks) ks = none := by
  induction ks generalizing t with
  | nil => cases t; rfl
  | cons s rest ih =>
    cases t with
    | node tv cs =>
      cases hc : lookupChild cs s with
      | none =>
        rw [removeSegs_cons_none tv rest hc, findSegs_cons_none tv rest hc]
      | some c =>
        cases rest with
        | nil =>
          by_cases he : c.children.isEmpty
          · rw [removeSegs_last_prune tv hc he,
              findSegs_cons_none tv [] (lookup_eraseChild_self cs s)]
          · rw [removeSegs_last_keep tv hc he,
              findSegs_cons_some tv [] (lookup_setChild_self cs s _)]
            rfl
        | cons r rs =>
          rw [removeSegs_deep tv r rs hc,
            findSegs_cons_some tv (r :: rs) (lookup_setChild_self cs s _)]
          exact ih c

theorem findSegs_removeSegs_ne (t : Trie α) (ks ks' : List (List Char))
    (h : ks' ≠ ks) :
    findSegs (removeSegs t ks) ks' = findSegs t ks' := by
  induction ks generalizing t ks' with
  | nil =>
    cases ks' with
    | nil => exact absurd rfl h
    | cons s' rest' =>
      cases t with
      | node tv cs => rfl
  | cons s rest ih =>
    cases t with
    | node tv cs =>
      cases hc : lookupChild cs s with
      | none => rw [removeSegs_cons_none tv rest hc]
      | some c =>
        cases rest with
        | nil =>
          by_cases he : c.children.isEmpty
          · rw [removeSegs_last_prune tv hc he]
            cases ks' with
            | nil => rfl
            | cons s' rest' =>
              by_cases hs : s' = s
              · subst hs
                cases rest' with
                | nil => exact absurd rfl h
                | cons x xs =>
                  rw [findSegs_cons_none tv (x :: xs)
                      (lookup_eraseChild_self cs s'),
                    findSegs_cons_some tv (x :: xs) hc]
                  cases c with
                  | node cv cc =>
                    have hcc : cc = [] := by
                      rw [children_node] at he
                      rw [List.isEmpty_iff] at he
                      exact he
                    subst hcc
                    rw [findSegs_cons_none cv xs (lookupChild_nil x)]
              · cases hc2 : lookupChild cs s' with
                | none =>
                  rw [findSegs_cons_none tv rest'
                      (by rw [lookup_eraseChild_ne cs s s' hs]; exact hc2),
                    findSegs_cons_none tv rest' hc2]
                | some c2 =>
                  rw [findSegs_cons_some tv rest'
                      (by rw [lookup_eraseChild_ne cs s s' hs]; exact hc2),
                    findSegs_cons_some tv rest' hc2]
          · rw [removeSegs_last_keep tv hc he]
            cases ks' with
            | nil => rfl
            | cons s' rest' =>
              by_cases hs : s' = s
              · subst hs
                cases rest' with
                | nil => exact absurd rfl h
                | cons x xs =>
                  rw [findSegs_cons_some tv (x :: xs)
                      (lookup_setChild_self cs s' _),
                    findSegs_cons_some tv (x :: xs) hc]
                  cases c with
                  | node cv cc => rfl
              · cases hc2 : lookupChild cs s' with
                | none =>
                  rw [findSegs_cons_none tv rest'
                      (by rw [lookup_setChild_ne cs s s' _ hs]; exact hc2),
                    findSegs_cons_none tv rest' hc2]
                | some c2 =>
                  rw [findSegs_cons_some tv rest'
                      (by rw [lookup_setChild_ne cs s s' _ hs]; exact hc2),
                    findSegs_cons_some tv rest' hc2]
        | cons r rs =>
          rw [removeSegs_deep tv r rs hc]
          cases ks' with
          | nil => rfl
          | cons s' rest' =>
            by_cases hs : s' = s
            · subst hs
              have hrest : rest' ≠ r :: rs := fun he2 => h (by rw [he2])
              rw [findSegs_cons_some tv rest' (lookup_setChild_self cs s' _),
                ih _ _ hrest, findSegs_cons_some tv rest' hc]
            · cases hc2 : lookupChild cs s' with
              | none =>
                rw [findSegs_cons_none tv rest'
                    (by rw [lookup_setChild_ne cs s s' _ hs]; exact hc2),
                  findSegs_cons_none tv rest' hc2]
              | some c2 =>
                rw [findSegs_cons_some tv rest'
                    (by rw [lookup_setChild_ne cs s s' _ hs]; exact hc2),
                  findSegs_cons_some tv rest' hc2]

/-!  String-key corollaries, using injectivity of the segmentation. -/

theorem trieFind_trieRemove_self (t : Trie α) (key : List Char) :
    trieFind (trieRemove t key) key = none :=
  findSegs_removeSegs_self t (splitSeg key)

theorem trieFind_trieRemove_ne (t : Trie α) (key key' : List Char)
    (h : key' ≠ key) :
    trieFind (trieRemove t key) key' = trieFind t key' :=
  findSegs_removeSegs_ne t (splitSeg key) (splitSeg key')
    (fun he => h (splitSeg_injective he))

theorem trieFind_trieInsert_self (t : Trie α) (key : List Char) (v : α) :
    trieFind (trieInsert t key v) key = some v :=
  findSegs_insertSegs_self t (splitSeg key) v

theorem trieFind_trieInsert_ne (t : Trie α) (key key' : List Char) (v : α)
    (h : key' ≠ key) :
    trieFind (trieInsert t key v) key' = trieFind t key' :=
  findSegs_insertSegs_ne t (splitSeg key) (splitSeg key') v
    (fun he => h (splitSeg_injective he))

/-- C5 counterexample: a prefix index holding entries at "a" (value 1),
"a.b" (value 2) and the deeper entry "a.b.c" (value 3).  After
remove("a.b"), findByLongestPrefix("a.b.c") returns the still-reachable
entry at "a.b.c" itself — value 3 — and not the value 1 stored at "a" as
the claim asserts. -/
theorem c5_remove_longest_counterexample :
    findByLongestPrefixTrie
        (trieRemove
          (trieInsert (trieInsert (trieInsert (emptyTrie : Trie Nat)
            ("a".data) 1) ("a.b".data) 2) ("a.b.c".data) 3)
          ("a.b".data)) ("a.b.c".data) = some 3 ∧
      trieFind
        (trieRemove
          (trieInsert (trieInsert (trieInsert (emptyTrie : Trie Nat)
            ("a".data) 1) ("a.b".data) 2) ("a.b.c".data) 3)
          ("a.b".data)) ("a".data) = some 1 := by
  decide

/-- C5 amended: remove(key) clears exactly that entry — find(key) is
absent afterwards while every other key's find result is unchanged, so
every previously inserted descendant entry remains reachable; and with
entries at "a"→1, "a.b"→2 and a deeper entry "a.b.c.d"→3 (no entry at
"a.b.c" itself), after remove("a.b") find("a.b") is absent,
find("a.b.c.d") still yields 3, and findByLongestPrefix("a.b.c") resolves
to the value stored at "a". -/
theorem c5_remove_clears_exactly_one_key :
    (∀ (α : Type) (t : Trie α) (key : List Char),
        trieFind (trieRemove t key) key = none) ∧
      (∀ (α : Type) (t : Trie α) (key key' : List Char), key' ≠ key →
        trieFind (trieRemove t key) key' = trieFind t key') ∧
      (findByLongestPrefixTrie
          (trieRemove
            (trieInsert (trieInsert (trieInsert (emptyTrie : Trie Nat)
              ("a".data) 1) ("a.b".data) 2) ("a.b.c.d".data) 3)
            ("a.b".data)) ("a.b.c".data) = some 1 ∧
        trieFind
          (trieRemove
            (trieInsert (trieInsert (trieInsert (emptyTrie : Trie Nat)
              ("a".data) 1) ("a.b".data) 2) ("a.b.c.d".data) 3)
            ("a.b".data)) ("a.b".data) = none ∧
        trieFind
          (trieRemove
            (trieInsert (trieInsert (trieInsert (emptyTrie : Trie Nat)
              ("a".data) 1) ("a.b".data) 2) ("a.b.c.d".data) 3)
            ("a.b".data)) ("a.b.c.d".data) = some 3) :=
  ⟨fun _ t key => trieFind_trieRemove_self t key,
    fun _ t key key' h => trieFind_trieRemove_ne t key key' h,
    by decide⟩

/-- C5 amended witness: the frame part applied to the concrete scenario —
removing "a.b" leaves "a.b.c.d" untouched. -/
theorem c5_remove_clears_exactly_one_key_witness :
    trieFind
        (trieRemove
          (trieInsert (trieInsert (trieInsert (emptyTrie : Trie Nat)
            ("a".data) 1) ("a.b".data) 2) ("a.b.c.d".data) 3)
          ("a.b".data)) ("a.b.c.d".data) =
      trieFind
        (trieInsert (trieInsert (trieInsert (emptyTrie : Trie Nat)
          ("a".data) 1) ("a.b".data) 2) ("a.b.c.d".data) 3)
        ("a.b.c.d".data) :=
  c5_remove_clears_exactly_one_key.2.1 Nat
    (trieInsert (trieInsert (trieInsert (emptyTrie : Trie Nat)
      ("a".data) 1) ("a.b".data) 2) ("a.b.c.d".data) 3)
    ("a.b".data) ("a.b.c.d".data) (by decide)

/-!  Repository lemmas. -/

/-- Run a sequence of getLogger calls (path, inheritance flag), keeping
only the evolving repository state. -/
def runCalls (r : Repo) (calls : List (List Char × Bool)) : Repo :=
  calls.foldl (fun a c => (a.getLogger c.1 c.2).2) r

theorem getLogger_hit (r : Repo) (p : List Char) (b : Bool) (id : Nat)
    (h : trieFind r.trie p = some id) : r.getLogger p b = (id, r) := by
  unfold Repo.getLogger
  rw [h]

theorem getLogger_registered (r : Repo) (p : List Char) (b : Bool) :
    trieFind (r.getLogger p b).2.trie p = some (r.getLogger p b).1 := by
  unfold Repo.getLogger
  cases h : trieFind r.trie p with
  | some id => exact h
  | none =>
    show trieFind (trieInsert r.trie p r.heap.length) p = some r.heap.length
    exact trieFind_trieInsert_self r.trie p r.heap.length

theorem getLogger_preserves_other (r : Repo) (p q : List Char) (b : Bool)
    (h : q ≠ p) :
    trieFind (r.getLogger q b).2.trie p = trieFind r.trie p := by
  unfold Repo.getLogger
  cases hq : trieFind r.trie q with
  | some id => rfl
  | none =>
    show trieFind (trieInsert r.trie q r.heap.length) p = trieFind r.trie p
    exact trieFind_trieInsert_ne r.trie q p r.heap.length (fun he => h he.symm)

theorem runCalls_preserves (calls : List (List Char × Bool)) (r : Repo)
    (p : List Char) (h : ∀ c ∈ calls, c.1 ≠ p) :
    trieFind (runCalls r calls).trie p = trieFind r.trie p := by
  induction calls generalizing r with
  | nil => rfl
  | cons c rest ih =>
    show trieFind (runCalls ((r.getLogger c.1 c.2).2) rest).trie p = _
    rw [ih _ (fun d hd => h d (List.mem_cons_of_mem c hd)),
      getLogger_preserves_other r p c.1 c.2 (h c (List.mem_cons_self c rest))]

/-- C6: once a getLogger call has created and registered a Logger for a
path, every later getLogger call for that path — with any inheritance
flag and after any number of getLogger calls for other paths — returns
that exact same Logger instance and leaves the registry unchanged. -/
theorem c6_getLogger_same_identity :
    ∀ (r : Repo) (p : List Char) (b0 : Bool)
      (calls : List (List Char × Bool)) (b : Bool),
      (∀ c ∈ calls, c.1 ≠ p) →
      (runCalls (r.getLogger p b0).2 calls).getLogger p b =
        ((r.getLogger p b0).1, runCalls (r.getLogger p b0).2 calls) := by
  intro r p b0 calls b h
  apply getLogger_hit
  rw [runCalls_preserves calls _ p h]
  exact getLogger_registered r p b0

/-- C6 witness: create "x" in an empty repository, create "y", then ask
for "x" again with the other inheritance flag. -/
theorem c6_getLogger_same_identity_witness :
    (runCalls (emptyRepo.getLogger ("x".data) false).2
        [(("y".data), true)]).getLogger ("x".data) true =
      ((emptyRepo.getLogger ("x".data) false).1,
        runCalls (emptyRepo.getLogger ("x".data) false).2
          [(("y".data), true)]) :=
  c6_getLogger_same_identity emptyRepo ("x".data) false
    [(("y".data), true)] true (by decide)

/-- C7: a child Logger created through inheritance snapshots its
configuration from the nearest registered ancestor at creation time: its
level equals the parent's level at that moment, and later configuration
mutators on the parent (setLogLevel, addOutputter) change the parent's
registered state but leave the child's registered state — level included —
completely untouched. -/
theorem c7_inheritance_is_snapshot :
    ∀ (r : Repo) (p q : List Char) (pid : Nat) (lvl : LogLevel)
      (o : FileSink),
      trieFind r.trie p = some pid →
      trieFind r.trie q = none →
      findByLongestPrefixTrie r.trie q = some pid →
      pid < r.heap.length →
      (((r.getLogger q true).2.heap[(r.getLogger q true).1]?).map
          LoggerM.level = (r.heap[pid]?).map LoggerM.level) ∧
        ((((r.getLogger q true).2.setLevelAt pid lvl).heap[(r.getLogger q
            true).1]?) = (r.getLogger q true).2.heap[(r.getLogger q true).1]?) ∧
        ((((r.getLogger q true).2.addOutputterAt pid o).heap[(r.getLogger q
            true).1]?) = (r.getLogger q true).2.heap[(r.getLogger q true).1]?) ∧
        ((((r.getLogger q true).2.setLevelAt pid lvl).heap[pid]?).map
          LoggerM.level = some lvl) := by
  intro r p q pid lvl o hp hq hflp hpid
  have hgl : r.getLogger q true =
      (r.heap.length,
        { trie := trieInsert r.trie q r.heap.length,
          heap := r.heap ++ [{ r.heap.getD pid default with name := q }] }) := by
    unfold Repo.getLogger
    rw [hq, hflp]
    rfl
  rw [hgl]
  have hid : (r.heap ++
      [{ r.heap.getD pid default with name := q }])[r.heap.length]? =
      some { r.heap.getD pid default with name := q } :=
    List.getElem?_concat_length _ _
  have hne : pid ≠ r.heap.length := Nat.ne_of_lt hpid
  refine ⟨?_, ?_, ?_, ?_⟩
  · rw [hid]
    rw [List.getElem?_eq_getElem hpid]
    show some (r.heap.getD pid default).level = some r.heap[pid].level
    rw [List.getD_eq_getElem?_getD, List.getElem?_eq_getElem hpid]
    rfl
  · show (List.set _ pid _)[r.heap.length]? = _
    rw [List.getElem?_set_ne hne]
  · show (List.set _ pid _)[r.heap.length]? = _
    rw [List.getElem?_set_ne hne]
  · show (List.set _ pid _)[pid]?.map LoggerM.level = _
    have hlt : pid < (r.heap ++
        [{ r.heap.getD pid default with name := q }]).length := by
      rw [List.length_append]
      omega
    simp only [List.getElem?_set_self, hlt]
    rfl

/-- C7 witness: a parent "a" (default level Info) in an otherwise empty
repository; the child "a.b" inherits, and the parent's later setLogLevel
to Error leaves the child's registered state unchanged. -/
theorem c7_inheritance_is_snapshot_witness :
    ((((emptyRepo.getLogger ("a".data) false).2.getLogger ("a.b".data)
        true).2.setLevelAt 0 LogLevel.Error).heap[1]?) =
      ((emptyRepo.getLogger ("a".data) false).2.getLogger ("a.b".data)
        true).2.heap[1]? :=
  (c7_inheritance_is_snapshot (emptyRepo.getLogger ("a".data) false).2
    ("a".data) ("a.b".data) 0 LogLevel.Error (mkFileSink 4 0)
    (by decide) (by decide) (by decide) (by decide)).2.1

/-!  Properties of the segmentation: segments are delimiter-free, and
joining a nonempty delimiter-free segment list is a right inverse of
splitting. -/

theorem splitSeg_of_no_dot (s : List Char) (h : ('.' : Char) ∉ s) :
    splitSeg s = [s] := by
  induction s with
  | nil => rfl
  | cons c cs ih =>
    have hc : c ≠ '.' := fun he => h (he ▸ List.mem_cons_self c cs)
    have hcs : ('.' : Char) ∉ cs := fun hm => h (List.mem_cons_of_mem c hm)
    show (if c = '.' then [] :: splitSeg cs else
      match splitSeg cs with
      | [] => [[c]]
      | s :: rest => (c :: s) :: rest) = [c :: cs]
    rw [if_neg hc, ih hcs]

theorem splitSeg_append_dot (s w : List Char) (h : ('.' : Char) ∉ s) :
    splitSeg (s ++ '.' :: w) = s :: splitSeg w := by
  induction s with
  | nil =>
    show (if ('.' : Char) = '.' then [] :: splitSeg w else
      match splitSeg w with
      | [] => [['.']]
      | s :: rest => ('.' :: s) :: rest) = [] :: splitSeg w
    rw [if_pos rfl]
  | cons c cs ih =>
    have hc : c ≠ '.' := fun he => h (he ▸ List.mem_cons_self c cs)
    have hcs : ('.' : Char) ∉ cs := fun hm => h (List.mem_cons_of_mem c hm)
    show (if c = '.' then [] :: splitSeg (cs ++ '.' :: w) else
      match splitSeg (cs ++ '.' :: w) with
      | [] => [[c]]
      | s :: rest => (c :: s) :: rest) = (c :: cs) :: splitSeg w
    rw [if_neg hc, ih hcs]

theorem splitSeg_no_dot (l : List Char) :
    ∀ s ∈ splitSeg l, ('.' : Char) ∉ s := by
  induction l with
  | nil =>
    intro s hs
    have : s = [] := by simpa [splitSeg] using hs
    subst this
    exact List.not_mem_nil _
  | cons c cs ih =>
    intro s hs
    by_cases hc : c = '.'
    · subst hc
      have he : splitSeg ('.' :: cs) = [] :: splitSeg cs := by
        show (if ('.' : Char) = '.' then [] :: splitSeg cs else
          match splitSeg cs with
          | [] => [['.']]
          | s :: rest => ('.' :: s) :: rest) = [] :: splitSeg cs
        rw [if_pos rfl]
      rw [he] at hs
      rcases List.mem_cons.mp hs with h1 | h2
      · subst h1; exact List.not_mem_nil _
      · exact ih s h2
    · cases h2 : splitSeg cs with
      | nil => exact absurd h2 (splitSeg_ne_nil cs)
      | cons a as =>
        have he : splitSeg (c :: cs) = (c :: a) :: as := by
          show (if c = '.' then [] :: splitSeg cs else
            match splitSeg cs with
            | [] => [[c]]
            | s :: rest => (c :: s) :: rest) = (c :: a) :: as
          rw [if_neg hc, h2]
        rw [he] at hs
        rcases List.mem_cons.mp hs with h1 | h3
        · subst h1
          intro hm
          rcases List.mem_cons.mp hm with hm1 | hm2
          · exact hc hm1.symm
          · exact ih a (h2 ▸ List.mem_cons_self a as) hm2
        · exact ih s (h2 ▸ List.mem_cons_of_mem a h3)

theorem splitSegJoin_of_wf (p : List (List Char)) (hnil : p ≠ [])
    (hdots : ∀ s ∈ p, ('.' : Char) ∉ s) :
    splitSeg (joinSegs p) = p := by
  induction p with
  | nil => exact absurd rfl hnil
  | cons s rest ih =>
    cases rest with
    | nil => exact splitSeg_of_no_dot s (hdots s (List.mem_cons_self s []))
    | cons t ts =>
      have hj : joinSegs (s :: t :: ts) = s ++ '.' :: joinSegs (t :: ts) :=
        rfl
      rw [hj, splitSeg_append_dot s _ (hdots s (List.mem_cons_self s _)),
        ih (by simp) (fun u hu => hdots u (List.mem_cons_of_mem s hu))]

/-!  C4: relating findByLongestPrefix to the spec's description "the value
at the longest dot-segment-aligned prefix of the query that carries an
entry".  The spec-side function probes every dot-aligned prefix of the
query, longest first, with the trie's own exact find. -/

/-- First-some choice (C++ "remember the last non-null value" read from
the other end). -/
def orO (a b : Option α) : Option α :=
  match a with
  | some v => some v
  | none => b

theorem orO_none_right (a : Option α) : orO a none = a := by
  cases a <;> rfl

theorem orO_assoc (a b c : Option α) :
    orO (orO a b) c = orO a (orO b c) := by
  cases a <;> rfl

/-- All nonempty prefixes of a segment list, longest first. -/
def segPrefixesDesc (segs : List (List Char)) : List (List (List Char)) :=
  ((List.range segs.length).reverse).map (fun i => segs.take (i + 1))

/-- The spec's longest-prefix resolution: scan the dot-aligned prefixes of
the query from longest to shortest and return the first one holding an
entry. -/
def specLongestDotPrefixValue (t : Trie α) (key : List Char) : Option α :=
  ((segPrefixesDesc (splitSeg key)).map joinSegs).findSome? (trieFind t)

theorem segPrefixesDesc_cons (s : List Char) (rest : List (List Char)) :
    segPrefixesDesc (s :: rest) =
      (segPrefixesDesc rest).map (fun p => s :: p) ++ [[s]] := by
  unfold segPrefixesDesc
  rw [List.length_cons, List.range_succ_eq_map, List.reverse_cons,
    ← List.map_reverse, List.map_append, List.map_map, List.map_map]
  rfl

theorem longestSegsAux_cons_none {cs : List (List Char × Trie α)}
    {s : List Char} (tv : Option α) (rest : List (List Char))
    (acc : Option α) (hc : lookupChild cs s = none) :
    longestSegsAux (Trie.node tv cs) (s :: rest) acc = acc := by
  conv_lhs => rw [longestSegsAux]
  simp only [children_node, hc]

theorem longestSegsAux_cons_some {cs : List (List Char × Trie α)}
    {s : List Char} {c : Trie α} (tv : Option α)
    (rest : List (List Char)) (acc : Option α)
    (hc : lookupChild cs s = some c) :
    longestSegsAux (Trie.node tv cs) (s :: rest) acc =
      longestSegsAux c rest (match c.value with
        | some v => some v
        | none => acc) := by
  conv_lhs => rw [longestSegsAux]
  simp only [children_node, hc]

theorem findSome?_append (l₁ l₂ : List β) (f : β → Option α) :
    (l₁ ++ l₂).findSome? f = orO (l₁.findSome? f) (l₂.findSome? f) := by
  induction l₁ with
  | nil => simp [orO]
  | cons x xs ih =>
    simp only [List.cons_append, List.findSome?_cons]
    cases f x <;> simp [orO, ih]

theorem findSome?_map (l : List β) (g : β → γ) (f : γ → Option α) :
    (l.map g).findSome? f = l.findSome? (fun x => f (g x)) := by
  induction l with
  | nil => rfl
  | cons x xs ih =>
    simp only [List.map_cons, List.findSome?_cons]
    cases f (g x) <;> simp [ih]

theorem findSome?_const_none (l : List β) :
    l.findSome? (fun _ => (none : Option α)) = none := by
  induction l with
  | nil => rfl
  | cons x xs ih => simp [List.findSome?_cons, ih]

theorem findSome?_congr (l : List β) (f g : β → Option α)
    (h : ∀ x ∈ l, f x = g x) : l.findSome? f = l.findSome? g := by
  induction l with
  | nil => rfl
  | cons x xs ih =>
    simp only [List.findSome?_cons]
    rw [h x (List.mem_cons_self x xs),
      ih (fun y hy => h y (List.mem_cons_of_mem x hy))]

/-- The loop of findByLongestPrefix computes exactly the longest-first
prefix probe, seeded with the incoming accumulator. -/
theorem longestSegsAux_eq (segs : List (List Char)) (t : Trie α)
    (acc : Option α) :
    longestSegsAux t segs acc =
      orO ((segPrefixesDesc segs).findSome? (findSegs t ·)) acc := by
  induction segs generalizing t acc with
  | nil => simp [longestSegsAux, segPrefixesDesc, orO]
  | cons s rest ih =>
    rw [segPrefixesDesc_cons, findSome?_append, findSome?_map]
    cases t with
    | node tv cs =>
      cases hc : lookupChild cs s with
      | none =>
        rw [longestSegsAux_cons_none tv rest acc hc]
        have hall : (segPrefixesDesc rest).findSome?
            (fun p => findSegs (Trie.node tv cs) (s :: p)) = none := by
          rw [findSome?_congr _ _ (fun _ => none)
            (fun p _ => findSegs_cons_none tv p hc)]
          exact findSome?_const_none _
        rw [hall, List.findSome?_cons, findSegs_cons_none tv [] hc,
          List.findSome?_nil]
        rfl
      | some c =>
        rw [longestSegsAux_cons_some tv rest acc hc, ih]
        have hmap : (segPrefixesDesc rest).findSome?
            (fun p => findSegs (Trie.node tv cs) (s :: p)) =
            (segPrefixesDesc rest).findSome? (fun p => findSegs c p) :=
          findSome?_congr _ _ _
            (fun p _ => findSegs_cons_some tv p hc)
        rw [hmap]
        have hsingle : ([[s]] : List (List (List Char))).findSome?
            (fun p => findSegs (Trie.node tv cs) p) = c.value := by
          rw [List.findSome?_cons, findSegs_cons_some tv [] hc,
            findSegs_nil]
          cases c.value <;> simp
        rw [hsingle, orO_assoc]
        have hacc : (match c.value with
            | some v => some v
            | none => acc) = orO c.value acc := rfl
        rw [hacc]

/-- C4 counterexample: an empty-path entry is NOT returned as a
root/default value by the trie.  With the single entry ""→7,
findByLongestPrefix("other") is absent although an empty-path entry
exists and nothing else matched. -/
theorem c4_empty_path_no_default :
    trieFind (trieInsert (emptyTrie : Trie Nat) [] 7) [] = some 7 ∧
      findByLongestPrefixTrie (trieInsert (emptyTrie : Trie Nat) [] 7)
        ("other".data) = none := by
  decide

/-- C4 amended: findByLongestPrefix returns the value stored at the
longest dot-segment-aligned prefix of the query that holds an entry
(probed with the index's own exact find, longest first) and is absent
when no such prefix holds one; an empty-path entry answers only the empty
query and is never a root/default fallback — that fallback exists only in
the flat-map SegmentMap, which falls back to its ""-keyed entry.
Matching respects segment boundaries ("app.mod" never matches
"app.module"), and on the entries "service"→1, "service.db"→2,
"service.db.pool"→3 the queries "service.db.pool.conn7", "service.cache"
and "other" resolve to 3, 1 and absent. -/
theorem c4_longest_prefix_characterisation :
    (∀ (α : Type) (t : Trie α) (key : List Char),
        findByLongestPrefixTrie t key = specLongestDotPrefixValue t key) ∧
      (findByLongestPrefixTrie
          (trieInsert (trieInsert (trieInsert (emptyTrie : Trie Nat)
            ("service".data) 1) ("service.db".data) 2)
            ("service.db.pool".data) 3) ("service.db.pool.conn7".data) =
          some 3 ∧
        findByLongestPrefixTrie
          (trieInsert (trieInsert (trieInsert (emptyTrie : Trie Nat)
            ("service".data) 1) ("service.db".data) 2)
            ("service.db.pool".data) 3) ("service.cache".data) = some 1 ∧
        findByLongestPrefixTrie
          (trieInsert (trieInsert (trieInsert (emptyTrie : Trie Nat)
            ("service".data) 1) ("service.db".data) 2)
            ("service.db.pool".data) 3) ("other".data) = none) ∧
      (findByLongestPrefixTrie
          (trieInsert (emptyTrie : Trie Nat) ("app.mod".data) 1)
          ("app.module".data) = none ∧
        findByLongestPrefixMap
          (mapInsert (emptyMap : SegMap Nat) ("app.mod".data) 1)
          ("app.module".data) = none) ∧
      (findByLongestPrefixMap
          (mapInsert (mapInsert (emptyMap : SegMap Nat) ("a".data) 1)
            [] 9) ("z".data) = some 9) := by
  refine ⟨?_, by decide, by decide, by decide⟩
  intro α t key
  show longestSegsAux t (splitSeg key) none = _
  rw [longestSegsAux_eq, orO_none_right]
  unfold specLongestDotPrefixValue
  rw [findSome?_map]
  apply findSome?_congr
  intro p hp
  unfold segPrefixesDesc at hp
  obtain ⟨i, hi, hpi⟩ := List.mem_map.mp hp
  have hnil : p ≠ [] := by
    rw [← hpi]
    cases h : splitSeg key with
    | nil => exact absurd h (splitSeg_ne_nil key)
    | cons a as => simp [List.take_succ_cons]
  have hdots : ∀ s ∈ p, ('.' : Char) ∉ s := by
    intro s hs
    apply splitSeg_no_dot key
    rw [← hpi] at hs
    exact List.take_subset _ _ hs
  show findSegs t p = trieFind t (joinSegs p)
  unfold trieFind
  rw [splitSegJoin_of_wf p hnil hdots]

/-- C9 counterexample: the constructor does not raise an error exactly
when the open fails — with an existing writable regular file (the open
succeeds) but a failing setvbuf, init still throws. -/
theorem c9_error_not_only_on_open_failure :
    (openForAppend
        { pathExists := true, isWritableRegular := true, canCreate := true,
          contents := "x".data }).isSome = true ∧
      fileOutputterInit
        { pathExists := true, isWritableRegular := true, canCreate := true,
          contents := "x".data } false = .error .setvbufFailed :=
  ⟨rfl, rfl⟩

/-- C9 amended: construction opens the backing file in append mode —
creating it when absent and never truncating existing contents — and
raises an explicit error exactly when the open fails or when disabling
stdio buffering (setvbuf) fails afterwards; the open-failure error
distinguishes "path exists but could not be opened" from "cannot
create", and a successfully constructed sink raised no error. -/
theorem c9_init_append_semantics :
    ∀ (fs : FsState) (sv : Bool),
      (∀ fs2, fileOutputterInit fs sv = .ok fs2 →
        fs2.pathExists = true ∧
          fs2.contents = (if fs.pathExists then fs.contents else [])) ∧
        ((∃ e, fileOutputterInit fs sv = .error e) ↔
          (openForAppend fs = none ∨ sv = false)) ∧
        (openForAppend fs = none →
          fileOutputterInit fs sv =
            .error (if fs.pathExists then .openFailedExisting
              else .openFailedMissing)) := by
  intro fs sv
  cases fs with
  | mk pe wr cc contents =>
    cases pe <;> cases wr <;> cases cc <;> cases sv <;>
      refine ⟨fun fs2 h => ?_, ?_, fun h => ?_⟩ <;>
        simp_all [fileOutputterInit, openForAppend] <;>
          exact h ▸ ⟨rfl, rfl⟩

/-- C9 amended witness: an existing path that cannot be opened for append
yields the error that names the existing-path case. -/
theorem c9_init_append_semantics_witness :
    fileOutputterInit
        { pathExists := true, isWritableRegular := false, canCreate := true,
          contents := "x".data } true = .error .openFailedExisting := by
  have h := (c9_init_append_semantics
      { pathExists := true, isWritableRegular := false, canCreate := true,
        contents := "x".data } true).2.2 rfl
  exact h

end Lfy
